import Mathlib

/-!
# Verification of `unassert` (src/index.mjs)

A shallow embedding of the unassert core: an ESTree-style AST, the
recognition predicates of `createVisitor`, the registration helpers, the
visitor's `enter`/`leave` logic, and the surrounding `estraverse.replace`
traversal (the external tree-walk collaborator, embedded per the contract
of spec §6: pre-order enter / post-order leave on the in-place mutated
tree, a skip directive issued together with every marking, removal of a
node spliced out of an array slot or nulled in a single-child slot, and
replacement by a non-undefined value returned from leave).

Design notes on the embedding:
* Node kinds are a closed vocabulary (spec §3, §9): statements and
  expressions are separate inductive types, so `type` dispatch becomes
  constructor matching.
* JS `Set` objects (target modules / variables) are `List String` used
  only through membership; `WeakSet` identity-marking is resolved locally:
  a node marked at its enter event is consumed at its (or its parent's)
  matching leave event in the same recursive call, which is exactly the
  pairing the spec's §3 invariant guarantees.
* Pure expressions are inert for this visitor: every enter case either
  dispatches on a statement-level kind or guards on
  `isExpressionStatement(parentNode)` / the declarator position, so the
  traversal never edits or registers anything strictly inside an
  expression.  The engine therefore recurses through statement structure
  only.
* estraverse mutates the tree while walking: a declarator spliced out at
  its leave event shrinks `parentNode.declarations` before the next
  sibling's enter event fires.  The engine models this with the live
  length `kept + 1 + rest`.
-/

/-- Literal values (`Literal.value`). JS distinguishes strings from other
primitive values; `Set.has` on a string set can only be true for strings. -/
inductive LitVal where
  | str (s : String)
  | num (n : Int)
  | boolVal (b : Bool)
  | nullVal
deriving DecidableEq

/-- Expression-level (and pattern-level) ESTree nodes used by the source.
`property` is the ObjectPattern member node (its `value` field is the bound
pattern); `restElem` is a RestElement, which has no `value` field. -/
inductive Expr where
  | ident (name : String)
  | lit (value : LitVal)
  | member (object : Expr) (property : Expr)
  | call (callee : Expr) (args : List Expr)
  | assign (op : String) (left : Expr) (right : Expr)
  | awaitE (argument : Expr)
  | objectPat (props : List Expr)
  | property (value : Expr)
  | assignPat (left : Expr) (right : Expr)
  | restElem (argument : Expr)

/-- An import specifier. All three ESTree specifier forms carry a `local`
binding, which is the only field the source reads (`handleImportSpecifiers`). -/
inductive ImportSpec where
  | importSpecifier (lcl : Expr)
  | importDefaultSpecifier (lcl : Expr)
  | importNamespaceSpecifier (lcl : Expr)

/-- A `VariableDeclarator`: `id` pattern and optional `init`. -/
structure Declarator where
  id : Expr
  init : Option Expr

/-- The `init` slot of a `for` statement / `left` slot of `for-in`/`for-of`:
either a `VariableDeclaration` or a plain expression (ESTree allows both;
`null` is the surrounding `Option`). -/
inductive ForInit where
  | varDecl (kind : String) (decls : List Declarator)
  | exprInit (e : Expr)

mutual
/-- Statement-level ESTree nodes. Single-statement child slots
(`consequent`, `alternate`, loop `body`) are `OStmt` because estraverse's
remove directive nulls a non-array slot. -/
inductive Stmt where
  | exprStmt (expression : Expr)
  | varDecl (kind : String) (declarations : List Declarator)
  | importDecl (specifiers : List ImportSpec) (source : Expr)
  | ifStmt (test : Expr) (consequent : OStmt) (alternate : OStmt)
  | whileStmt (test : Expr) (body : OStmt)
  | doWhileStmt (body : OStmt) (test : Expr)
  | forStmt (finit : Option ForInit) (test : Option Expr) (update : Option Expr) (body : OStmt)
  | forInStmt (left : Option ForInit) (right : Expr) (body : OStmt)
  | forOfStmt (left : Option ForInit) (right : Expr) (body : OStmt)
  | blockStmt (body : StmtList)
  | program (body : StmtList)
  | emptyStmt
/-- An optional statement slot (`null` in ESTree is `noStmt`). -/
inductive OStmt where
  | noStmt
  | oStmt (s : Stmt)
/-- A list of statements (a `body` array). -/
inductive StmtList where
  | nil
  | cons (head : Stmt) (tail : StmtList)
end

/-- The last component of estraverse's `this.path()` as consulted by
`leave`: the property key of the slot the current node occupies in its
parent. Array elements contribute a numeric index, which never equals a
key string (`listElem`); `root` is the path of the traversal root. -/
inductive Key where
  | consequent
  | alternate
  | body
  | finit
  | left
  | listElem
  | root
deriving DecidableEq

/-! ## Configuration (`defaultOptions`, `createVisitor` lines 13-22, 73-76) -/

/-- The caller's options object. A `none` field is an absent key, matching
JS property presence (`Object.assign` only copies present keys). -/
structure UnassertOptions where
  modules : Option (List String)
  «variables» : Option (List String)

/-- `defaultOptions()` (source lines 13-22): an object with a `modules`
key only — it has no `variables` key. -/
def defaultOptions : UnassertOptions :=
  { modules := some ["assert", "assert/strict", "node:assert", "node:assert/strict"],
    «variables» := none }

/-- `Object.assign(target, source)`: keys present in `source` overwrite
`target`; absent keys keep the target's value. -/
def objectAssign (target source : UnassertOptions) : UnassertOptions :=
  { modules := match source.modules with
      | some v => some v
      | none => target.modules,
    «variables» := match source.«variables» with
      | some v => some v
      | none => target.variables }

/-- `const config = Object.assign(defaultOptions(), options)` (line 74);
passing no `options` argument assigns from an absent object. -/
def visitorConfig (options : Option UnassertOptions) : UnassertOptions :=
  objectAssign defaultOptions (match options with
    | some o => o
    | none => { modules := none, «variables» := none })

/-- `const targetModules = new Set(config.modules)` (line 75):
`new Set(undefined)` is the empty set. -/
def targetModulesOf (options : Option UnassertOptions) : List String :=
  match (visitorConfig options).modules with
  | some m => m
  | none => []

/-- `const targetVariables = new Set(config.variables)` (line 76):
`new Set(undefined)` is the empty set. -/
def targetVariablesOf (options : Option UnassertOptions) : List String :=
  match (visitorConfig options).«variables» with
  | some v => v
  | none => []

/-- `Set.prototype.add`: membership-preserving insert. -/
def addVar (vars : List String) (name : String) : List String :=
  if vars.contains name then vars else name :: vars

/-! ## Shape predicates (source lines 24-71) -/

/-- `isLiteral(node)` (lines 51-53); the argument may be `undefined`
(e.g. `init.arguments[0]`), hence `Option`. -/
def isLiteral : Option Expr → Bool
  | some (.lit _) => true
  | _ => false

/-- `isIdentifier(node)` (lines 54-56). -/
def isIdentifier : Option Expr → Bool
  | some (.ident _) => true
  | _ => false

/-- `isObjectPattern(node)` (lines 57-59). -/
def isObjectPattern : Option Expr → Bool
  | some (.objectPat _) => true
  | _ => false

/-- `isMemberExpression(node)` (lines 60-62). -/
def isMemberExpression : Option Expr → Bool
  | some (.member _ _) => true
  | _ => false

/-- `isCallExpression(node)` (lines 63-65). -/
def isCallExpression : Option Expr → Bool
  | some (.call _ _) => true
  | _ => false

/-- `isIterationStatement(node)` (lines 28-39). -/
def isIterationStatement : Option Stmt → Bool
  | some (.doWhileStmt _ _) => true
  | some (.forInStmt _ _ _) => true
  | some (.forOfStmt _ _ _) => true
  | some (.forStmt _ _ _ _) => true
  | some (.whileStmt _ _) => true
  | _ => false

/-- `isBodyOfIfStatement(parentNode, key)` (lines 24-26). -/
def isBodyOfIfStatement (parentNode : Option Stmt) (key : Key) : Bool :=
  (match parentNode with
    | some (.ifStmt _ _ _) => true
    | _ => false) && (key == .consequent || key == .alternate)

/-- `isBodyOfIterationStatement(parentNode, key)` (lines 41-43). -/
def isBodyOfIterationStatement (parentNode : Option Stmt) (key : Key) : Bool :=
  isIterationStatement parentNode && key == .body

/-- `isNonBlockChildOfIfStatementOrLoop(currentNode, parentNode, key)`
(lines 45-49): the current node must be an ExpressionStatement whose
expression is a CallExpression, in an if-branch or loop-body slot. -/
def isNonBlockChildOfIfStatementOrLoop (currentNode : Stmt) (parentNode : Option Stmt)
    (key : Key) : Bool :=
  (match currentNode with
    | .exprStmt (.call _ _) => true
    | _ => false) &&
    (isBodyOfIfStatement parentNode key || isBodyOfIterationStatement parentNode key)

/-! ## Recognition predicates closed over the two target sets
(source lines 78-168; `tM` is `targetModules`, `vars` is `targetVariables`) -/

/-- `isAssertionModuleName(lit)` (lines 78-80): a Literal whose value is in
the target module set; a set of strings only contains strings. -/
def isAssertionModuleName (tM : List String) (l : Option Expr) : Bool :=
  match l with
  | some (.lit (.str s)) => tM.contains s
  | _ => false

/-- `isAssertionVariableName(id)` (lines 82-84). -/
def isAssertionVariableName (vars : List String) (id : Option Expr) : Bool :=
  match id with
  | some (.ident n) => vars.contains n
  | _ => false

/-- `isAssertionMethod(callee)` (lines 86-96): unwinds a member chain to
its innermost object, which must be an assertion variable name. -/
def isAssertionMethod (vars : List String) : Expr → Bool
  | .member obj _ =>
    match obj with
    | .member o p => isAssertionMethod vars (.member o p)
    | _ => isAssertionVariableName vars (some obj)
  | _ => false

/-- `isAssertionFunction(callee)` (lines 98-100). -/
def isAssertionFunction (vars : List String) (callee : Expr) : Bool :=
  isAssertionVariableName vars (some callee)

/-- `isConsoleAssert(callee)` (lines 102-109): exactly the member access
`console.assert` on plain identifiers, independent of both target sets. -/
def isConsoleAssert : Expr → Bool
  | .member obj prop =>
    (match obj with
      | .ident o => o == "console"
      | _ => false) &&
    (match prop with
      | .ident p => p == "assert"
      | _ => false)
  | _ => false

/-- `isRequireAssert(id, init)` (lines 139-152): `init` is a call of the
identifier `require` whose first argument is an assertion module literal,
and `id` is a plain identifier or an object pattern. -/
def isRequireAssert (tM : List String) (id : Expr) (init : Option Expr) : Bool :=
  match init with
  | some (.call callee args) =>
    (match callee with
      | .ident n => n == "require"
      | _ => false) &&
    (isLiteral args.head? && isAssertionModuleName tM args.head?) &&
    (isIdentifier (some id) || isObjectPattern (some id))
  | _ => false

/-- `isRequireAssertStrict(id, init)` (lines 154-166): `init` is
`X.strict` where `(id, X)` satisfies `isRequireAssert`. -/
def isRequireAssertStrict (tM : List String) (id : Expr) (init : Option Expr) : Bool :=
  match init with
  | some (.member obj prop) =>
    isRequireAssert tM id (some obj) &&
    (match prop with
      | .ident n => n == "strict"
      | _ => false)
  | _ => false

/-- `isRemovalTarget(id, init)` (line 168). -/
def isRemovalTarget (tM : List String) (id : Expr) (init : Option Expr) : Bool :=
  isRequireAssert tM id init || isRequireAssertStrict tM id init

/-! ## Registration of assertion variables (source lines 111-137) -/

/-- `registerIdentifierAsAssertionVariable(id)` (lines 111-115): add the
identifier's name to `targetVariables`; non-identifiers add nothing. -/
def registerIdentifierAsAssertionVariable (vars : List String) (id : Option Expr) : List String :=
  match id with
  | some (.ident n) => addVar vars n
  | _ => vars

/-- The `value` field read by the `{ value }` destructuring in
`handleDestructuredAssertionAssignment`; a RestElement (or any non-Property
node) has no such field, so the read yields `undefined`. -/
def propertyValue : Expr → Option Expr
  | .property v => some v
  | _ => none

/-- `handleDestructuredAssertionAssignment(objectPattern)` (lines 117-121):
register each property's `value`. -/
def handleDestructuredAssertionAssignment (vars : List String) : List Expr → List String
  | [] => vars
  | p :: rest =>
    handleDestructuredAssertionAssignment
      (registerIdentifierAsAssertionVariable vars (propertyValue p)) rest

/-- The `local` field of an import specifier. -/
def specLocal : ImportSpec → Expr
  | .importSpecifier l => l
  | .importDefaultSpecifier l => l
  | .importNamespaceSpecifier l => l

/-- `handleImportSpecifiers(importDeclaration)` (lines 123-127): register
each specifier's `local` binding. -/
def handleImportSpecifiers (vars : List String) : List ImportSpec → List String
  | [] => vars
  | s :: rest =>
    handleImportSpecifiers
      (registerIdentifierAsAssertionVariable vars (some (specLocal s))) rest

/-- `registerAssertionVariables(node)` (lines 129-137) for the
expression-level call sites (`currentNode.id`, `currentNode.left`): an
identifier registers its name, an object pattern its identifier-valued
properties; the ImportDeclaration arm of the source's dispatch is the
statement-level call `handleImportSpecifiers` at its only call site. -/
def registerAssertionVariables (vars : List String) (node : Expr) : List String :=
  match node with
  | .ident n => registerIdentifierAsAssertionVariable vars (some (.ident n))
  | .objectPat props => handleDestructuredAssertionAssignment vars props
  | _ => vars

/-! ## The visitor's enter logic (source lines 172-244), split per switch
case. Each function returns what the case marks together with the updated
variable set; marking is always accompanied by `this.skip()`. -/

/-- What the `VariableDeclarator` enter case marks. -/
inductive DeclaratorAction where
  | dNone
  | dMarkSelf
  | dMarkParent

/-- Enter, `case VariableDeclarator` (lines 187-201): a removal target
marks the parent declaration when it is the sole element of the live
`parentNode.declarations` array, otherwise marks just the declarator, and
registers its bound name(s). -/
def enterVariableDeclarator (tM vars : List String) (d : Declarator)
    (parentDeclarationsLength : Nat) : DeclaratorAction × List String :=
  if isRemovalTarget tM d.id d.init then
    ((if parentDeclarationsLength == 1 then .dMarkParent else .dMarkSelf),
      registerAssertionVariables vars d.id)
  else (.dNone, vars)

/-- Enter, `case ImportDeclaration` (lines 175-186): an assertion-module
ImportDeclaration marks itself and registers every specifier's local name. -/
def enterImportDeclaration (tM vars : List String) (specs : List ImportSpec)
    (source : Expr) : Bool × List String :=
  if isAssertionModuleName tM (some source) then (true, handleImportSpecifiers vars specs)
  else (false, vars)

/-- Enter for the child expression of an `ExpressionStatement` — the three
cases guarded by `isExpressionStatement(parentNode)`: `AssignmentExpression`
(lines 203-218), `CallExpression` (lines 219-230) and `AwaitExpression`
(lines 231-242). `true` means the enclosing statement is marked. -/
def enterExpressionStatementChild (tM vars : List String) (e : Expr) : Bool × List String :=
  match e with
  | .assign op left right =>
    if op == "=" && isRemovalTarget tM left (some right) then
      (true, registerAssertionVariables vars left)
    else (false, vars)
  | .call callee _ =>
    (isAssertionFunction vars callee || isAssertionMethod vars callee || isConsoleAssert callee,
      vars)
  | .awaitE argument =>
    ((match argument with
      | .call callee _ =>
        isAssertionFunction vars callee || isAssertionMethod vars callee ||
          isConsoleAssert callee
      | _ => false), vars)
  | _ => (false, vars)

/-! ## The visitor's leave logic (source lines 245-268) -/

/-- The three-way outcome of a leave event (spec §9): return `undefined`
(no change), return a replacement node, or call `this.remove()`. -/
inductive LeaveOutcome where
  | noChange
  | replaceWith (s : Stmt)
  | removeSelf

/-- The statement kinds of the leave switch (lines 246-253):
ImportDeclaration, VariableDeclaration, ExpressionStatement; the fourth
kind, VariableDeclarator, is not a statement and its leave event is handled
inside the declarator walk. -/
def markableKind : Stmt → Bool
  | .importDecl _ _ => true
  | .varDecl _ _ => true
  | .exprStmt _ => true
  | _ => false

/-- `leave(currentNode, parentNode)` (lines 245-268), with the node's
marker-set membership passed in: a marked node in a non-block if-branch or
loop-body slot is replaced by an empty BlockStatement, any other marked
node is removed; everything else is untouched. -/
def leave (marked : Bool) (currentNode : Stmt) (parentNode : Option Stmt)
    (key : Key) : LeaveOutcome :=
  if markableKind currentNode then
    if marked then
      if isNonBlockChildOfIfStatementOrLoop currentNode parentNode key then
        .replaceWith (.blockStmt .nil)
      else .removeSelf
    else .noChange
  else .noChange

/-! ## The traversal engine (`estraverse.replace` as used here)

`visitDecls` walks a declarations array the way estraverse does: a
declarator marked and spliced at its leave event shrinks the live array
before the next sibling's enter event reads
`parentNode.declarations.length` — so the live length when a declarator is
entered is `kept + 1 + rest`.  A marked declarator's own leave event always
splices it (a VariableDeclarator never passes
`isNonBlockChildOfIfStatementOrLoop`).  `dMarkParent` can only fire on the
last remaining declarator (live length 1). -/

/-- Walk the declarations of one `VariableDeclaration`. Returns the
surviving declarators, the updated variable set, and whether the parent
declaration was marked. -/
def visitDecls (tM vars : List String) (kept : List Declarator) :
    List Declarator → List Declarator × List String × Bool
  | [] => (kept, vars, false)
  | d :: rest =>
    match enterVariableDeclarator tM vars d (kept.length + 1 + rest.length) with
    | (.dMarkParent, vars') => (kept, vars', true)
    | (.dMarkSelf, vars') => visitDecls tM vars' kept rest
    | (.dNone, vars') => visitDecls tM vars' (kept ++ [d]) rest

/-- Walk a `for` init / `for-in`/`for-of` left slot: a declaration whose
declarator marks it is removed (the slot becomes null); expressions are
inert here because no enter case matches inside them (assignment and call
cases require an ExpressionStatement parent). -/
def visitForInit (tM vars : List String) : ForInit → Option ForInit × List String
  | .varDecl kind decls =>
    match visitDecls tM vars [] decls with
    | (_, vars', true) => (none, vars')
    | (kept, vars', false) => (some (.varDecl kind kept), vars')
  | .exprInit e => (some (.exprInit e), vars)

mutual
/-- One node's enter event, subtree, and leave event, with the visitor's
state threaded in document order. `parentNode`/`key` are the slot the node
occupies (estraverse hands `leave` the live parent, but `leave` only reads
its node kind, which mutation never changes). Returns `none` when the node
was removed. Child slots are traversed in estraverse's VisitorKeys order. -/
def visitStmt (tM vars : List String) (parentNode : Option Stmt) (key : Key) :
    Stmt → Option Stmt × List String
  | .exprStmt e =>
    let (marked, vars') := enterExpressionStatementChild tM vars e
    ((match leave marked (.exprStmt e) parentNode key with
      | .replaceWith r => some r
      | .removeSelf => none
      | .noChange => some (.exprStmt e)), vars')
  | .importDecl specs source =>
    let (marked, vars') := enterImportDeclaration tM vars specs source
    ((match leave marked (.importDecl specs source) parentNode key with
      | .replaceWith r => some r
      | .removeSelf => none
      | .noChange => some (.importDecl specs source)), vars')
  | .varDecl kind decls =>
    match visitDecls tM vars [] decls with
    | (kept, vars', parentMarked) =>
      ((match leave parentMarked (.varDecl kind decls) parentNode key with
        | .replaceWith r => some r
        | .removeSelf => none
        | .noChange => some (.varDecl kind kept)), vars')
  | .ifStmt test c a =>
    let (c', vars1) := visitOStmt tM vars (some (.ifStmt test c a)) .consequent c
    let (a', vars2) := visitOStmt tM vars1 (some (.ifStmt test c a)) .alternate a
    (some (.ifStmt test c' a'), vars2)
  | .whileStmt test b =>
    let (b', vars') := visitOStmt tM vars (some (.whileStmt test b)) .body b
    (some (.whileStmt test b'), vars')
  | .doWhileStmt b test =>
    let (b', vars') := visitOStmt tM vars (some (.doWhileStmt b test)) .body b
    (some (.doWhileStmt b' test), vars')
  | .forStmt finit test update b =>
    let (finit', vars1) :=
      match finit with
      | none => (none, vars)
      | some fi => visitForInit tM vars fi
    let (b', vars2) := visitOStmt tM vars1 (some (.forStmt finit test update b)) .body b
    (some (.forStmt finit' test update b'), vars2)
  | .forInStmt left right b =>
    let (left', vars1) :=
      match left with
      | none => (none, vars)
      | some fi => visitForInit tM vars fi
    let (b', vars2) := visitOStmt tM vars1 (some (.forInStmt left right b)) .body b
    (some (.forInStmt left' right b'), vars2)
  | .forOfStmt left right b =>
    let (left', vars1) :=
      match left with
      | none => (none, vars)
      | some fi => visitForInit tM vars fi
    let (b', vars2) := visitOStmt tM vars1 (some (.forOfStmt left right b)) .body b
    (some (.forOfStmt left' right b'), vars2)
  | .blockStmt body =>
    let (body', vars') := visitStmtList tM vars (some (.blockStmt body)) body
    (some (.blockStmt body'), vars')
  | .program body =>
    let (body', vars') := visitStmtList tM vars (some (.program body)) body
    (some (.program body'), vars')
  | .emptyStmt => (some .emptyStmt, vars)

/-- Traverse an optional single-statement slot; a removed child nulls the
slot (estraverse's `Reference.remove` on a non-array reference). -/
def visitOStmt (tM vars : List String) (parentNode : Option Stmt) (key : Key) :
    OStmt → OStmt × List String
  | .noStmt => (.noStmt, vars)
  | .oStmt s =>
    match visitStmt tM vars parentNode key s with
    | (some s', vars') => (.oStmt s', vars')
    | (none, vars') => (.noStmt, vars')

/-- Traverse a statement array left to right; a removed element is spliced
out. Elements occupy numeric-index slots (`Key.listElem`). -/
def visitStmtList (tM vars : List String) (parentNode : Option Stmt) :
    StmtList → StmtList × List String
  | .nil => (.nil, vars)
  | .cons s tl =>
    let (r, vars1) := visitStmt tM vars parentNode .listElem s
    let (tl', vars2) := visitStmtList tM vars1 parentNode tl
    ((match r with
      | some s' => .cons s' tl'
      | none => tl'), vars2)
end

/-- `unassertAst(ast, options)` (lines 272-274): build the visitor from the
options and run `estraverse.replace` from the root. The intended root is a
Program node, which is never marked. (A markable root that does get marked
is modeled as removal, `none`; the real visitor has no defined behavior
there — its leave handler reads the last key of `this.path()`, which is
null at the traversal root — and no claim concerns that corner.) -/
def unassertAst (options : Option UnassertOptions) (ast : Stmt) : Option Stmt :=
  (visitStmt (targetModulesOf options) (targetVariablesOf options) none .root ast).1

/-! ## Derived notions used by the verification -/

/-- A declarator that `isRemovalTarget` marks (with the module set `tM`);
the predicate consults only the shapes of `id` and `init` and the module
set, never the variable set. -/
def isTargetDeclarator (tM : List String) (d : Declarator) : Bool :=
  isRemovalTarget tM d.id d.init

/-- No declarator of this for-init slot matches `isRemovalTarget`. -/
def cleanForInit (tM : List String) : ForInit → Bool
  | .varDecl _ decls => decls.all (fun d => !isTargetDeclarator tM d)
  | .exprInit _ => true

mutual
/-- No construct the visitor's enter phase can mark occurs in this
statement, relative to module set `tM` and variable set `vars`: no
assertion-module import or require binding, and no sole-expression call or
await the callee predicates recognize. (The checks sit exactly at the
positions the visitor consults them.) -/
def cleanStmt (tM vars : List String) : Stmt → Bool
  | .exprStmt e => !(enterExpressionStatementChild tM vars e).1
  | .importDecl specs source => !(enterImportDeclaration tM vars specs source).1
  | .varDecl _ decls => decls.all (fun d => !isTargetDeclarator tM d)
  | .ifStmt _ c a => cleanOStmt tM vars c && cleanOStmt tM vars a
  | .whileStmt _ b => cleanOStmt tM vars b
  | .doWhileStmt b _ => cleanOStmt tM vars b
  | .forStmt finit _ _ b =>
    (match finit with
      | some fi => cleanForInit tM fi
      | none => true) && cleanOStmt tM vars b
  | .forInStmt left _ b =>
    (match left with
      | some fi => cleanForInit tM fi
      | none => true) && cleanOStmt tM vars b
  | .forOfStmt left _ b =>
    (match left with
      | some fi => cleanForInit tM fi
      | none => true) && cleanOStmt tM vars b
  | .blockStmt body => cleanStmtList tM vars body
  | .program body => cleanStmtList tM vars body
  | .emptyStmt => true
/-- `cleanStmt` on an optional statement slot. -/
def cleanOStmt (tM vars : List String) : OStmt → Bool
  | .noStmt => true
  | .oStmt s => cleanStmt tM vars s
/-- `cleanStmt` on every element of a statement list. -/
def cleanStmtList (tM vars : List String) : StmtList → Bool
  | .nil => true
  | .cons s tl => cleanStmt tM vars s && cleanStmtList tM vars tl
end

/-- `cleanStmt` on the result of a visit (a removed node is clean). -/
def cleanOptStmt (tM vars : List String) : Option Stmt → Bool
  | some s => cleanStmt tM vars s
  | none => true

/-- Set inclusion for the variable set: every member of `xs` is a member
of `ys`. -/
def VarsSub (xs ys : List String) : Prop :=
  ∀ n : String, xs.contains n = true → ys.contains n = true

/-! ## Concrete programs used as inputs of the claims' theorems -/

/-- The call `require(m)`. -/
def requireOf (m : String) : Expr :=
  .call (.ident "require") [.lit (.str m)]

/-- `assert = require('node:assert')` as a declarator. -/
def exDeclAssert : Declarator :=
  ⟨.ident "assert", some (requireOf "node:assert")⟩

/-- The options object `{ variables: ['assert'] }`. -/
def optsVarsAssert : Option UnassertOptions :=
  some ⟨none, some ["assert"]⟩

/-- `assert(x);` as a whole program. -/
def exC1prog : Stmt :=
  .program (.cons (.exprStmt (.call (.ident "assert") [.ident "x"])) .nil)

/-- `var assert = require('node:assert');` — a marked declaration. -/
def exC2var : Stmt := .varDecl "var" [exDeclAssert]

/-- `if (c) var assert = require('node:assert');` — the marked declaration
sits in the consequent slot. -/
def exC2if : Stmt := .ifStmt (.ident "c") (.oStmt exC2var) .noStmt

/-- The program around `exC2if`. -/
def exC2prog : Stmt := .program (.cons exC2if .nil)

/-- `if (c) assert(x);` as a program. -/
def exC2ifCallProg : Stmt :=
  .program (.cons (.ifStmt (.ident "c")
    (.oStmt (.exprStmt (.call (.ident "assert") [.ident "x"]))) .noStmt) .nil)

/-- `while (c) assert(x);` as a program. -/
def exC2whileCallProg : Stmt :=
  .program (.cons (.whileStmt (.ident "c")
    (.oStmt (.exprStmt (.call (.ident "assert") [.ident "x"])))) .nil)

/-- `a = require('assert')` as a declarator. -/
def exDeclA : Declarator := ⟨.ident "a", some (requireOf "assert")⟩

/-- `b = require('assert')` as a declarator. -/
def exDeclB : Declarator := ⟨.ident "b", some (requireOf "assert")⟩

/-- `var a = require('assert'), b = require('assert');` as a program. -/
def exC3prog : Stmt := .program (.cons (.varDecl "var" [exDeclA, exDeclB]) .nil)

/-- `const x = 1, assert = require('node:assert');` as a program. -/
def exC3mixedProg : Stmt :=
  .program (.cons (.varDecl "const" [⟨.ident "x", some (.lit (.num 1))⟩, exDeclAssert]) .nil)

/-- `const assert = require('node:assert'); assert.equal(a, b);` as a program. -/
def exC4prog : Stmt :=
  .program (.cons (.varDecl "const" [exDeclAssert])
    (.cons (.exprStmt (.call (.member (.ident "assert") (.ident "equal"))
      [.ident "a", .ident "b"])) .nil))

/-- `foo(x);` as a program — nothing assertion-shaped. -/
def exC5prog : Stmt :=
  .program (.cons (.exprStmt (.call (.ident "foo") [.ident "x"])) .nil)

/-- `assert.deepStrictEqual(a, b);` as a statement. -/
def exC6deep : Stmt :=
  .exprStmt (.call (.member (.ident "assert") (.ident "deepStrictEqual"))
    [.ident "a", .ident "b"])

/-- `assert.deepStrictEqual(a, b);` alone as a program. -/
def exC6prog : Stmt := .program (.cons exC6deep .nil)

/-- `notAssert.deepStrictEqual(a, b);` alone as a program. -/
def exC6notProg : Stmt :=
  .program (.cons (.exprStmt (.call (.member (.ident "notAssert") (.ident "deepStrictEqual"))
    [.ident "a", .ident "b"])) .nil)

/-- `const assert = require('node:assert'); assert.deepStrictEqual(a, b);`. -/
def exC6importedProg : Stmt :=
  .program (.cons (.varDecl "const" [exDeclAssert]) (.cons exC6deep .nil))

/-- `await assert.rejects(fn);` alone as a program. -/
def exC8awaitProg : Stmt :=
  .program (.cons (.exprStmt (.awaitE (.call (.member (.ident "assert") (.ident "rejects"))
    [.ident "fn"]))) .nil)

/-- `const r = await assert.rejects(fn);` alone as a program. -/
def exC8constProg : Stmt :=
  .program (.cons (.varDecl "const" [⟨.ident "r",
    some (.awaitE (.call (.member (.ident "assert") (.ident "rejects")) [.ident "fn"]))⟩]) .nil)

/-- `ok(x);` as a statement. -/
def exC10use : Stmt := .exprStmt (.call (.ident "ok") [.ident "x"])

/-- `const { ok = dflt } = require('assert'); ok(x);` — the bound property
value is an AssignmentPattern, not a plain identifier. -/
def exC10prog : Stmt :=
  .program (.cons (.varDecl "const"
      [⟨.objectPat [.property (.assignPat (.ident "ok") (.ident "dflt"))],
        some (requireOf "assert")⟩])
    (.cons exC10use .nil))

/-- `const { ok } = require('assert'); ok(x);` — plain identifier binding. -/
def exC10plainProg : Stmt :=
  .program (.cons (.varDecl "const"
      [⟨.objectPat [.property (.ident "ok")], some (requireOf "assert")⟩])
    (.cons exC10use .nil))

/-- The name a destructuring property binds when and only when its value
is a plain identifier (the only shape
`registerIdentifierAsAssertionVariable` registers). -/
def boundIdentName (p : Expr) : Option String :=
  match propertyValue p with
  | some (.ident m) => some m
  | _ => none

/-! # Theorems

## Monotonicity of the target variable set (spec §3 invariant) -/

theorem varsSub_refl (xs : List String) : VarsSub xs xs := fun _ h => h

theorem varsSub_trans {a b c : List String} (h1 : VarsSub a b) (h2 : VarsSub b c) :
    VarsSub a c := fun n h => h2 n (h1 n h)

theorem varsSub_addVar (vars : List String) (m : String) : VarsSub vars (addVar vars m) := by
  intro n h
  unfold addVar
  split
  · exact h
  · simp only [List.contains_cons, Bool.or_eq_true, beq_iff_eq]
    exact Or.inr h

theorem varsSub_registerIdentifier (vars : List String) (id : Option Expr) :
    VarsSub vars (registerIdentifierAsAssertionVariable vars id) := by
  match id with
  | some (.ident n) => exact varsSub_addVar vars n
  | none => exact varsSub_refl vars
  | some (.lit _) | some (.member _ _) | some (.call _ _) | some (.assign _ _ _)
  | some (.awaitE _) | some (.objectPat _) | some (.property _)
  | some (.assignPat _ _) | some (.restElem _) => exact varsSub_refl vars

theorem varsSub_handleDestructured (props : List Expr) :
    ∀ vars : List String, VarsSub vars (handleDestructuredAssertionAssignment vars props) := by
  induction props with
  | nil => intro vars; exact varsSub_refl vars
  | cons p rest ih =>
    intro vars
    exact varsSub_trans (varsSub_registerIdentifier vars (propertyValue p)) (ih _)

theorem varsSub_handleImportSpecifiers (specs : List ImportSpec) :
    ∀ vars : List String, VarsSub vars (handleImportSpecifiers vars specs) := by
  induction specs with
  | nil => intro vars; exact varsSub_refl vars
  | cons s rest ih =>
    intro vars
    exact varsSub_trans (varsSub_registerIdentifier vars (some (specLocal s))) (ih _)

theorem varsSub_registerAssertionVariables (vars : List String) (node : Expr) :
    VarsSub vars (registerAssertionVariables vars node) := by
  match node with
  | .ident n => exact varsSub_registerIdentifier vars (some (.ident n))
  | .objectPat props => exact varsSub_handleDestructured props vars
  | .lit _ | .member _ _ | .call _ _ | .assign _ _ _ | .awaitE _ | .property _
  | .assignPat _ _ | .restElem _ => exact varsSub_refl vars

theorem varsSub_enterVariableDeclarator (tM vars : List String) (d : Declarator) (len : Nat) :
    VarsSub vars (enterVariableDeclarator tM vars d len).2 := by
  unfold enterVariableDeclarator
  split
  · exact varsSub_registerAssertionVariables vars d.id
  · exact varsSub_refl vars

theorem varsSub_enterImportDeclaration (tM vars : List String) (specs : List ImportSpec)
    (source : Expr) : VarsSub vars (enterImportDeclaration tM vars specs source).2 := by
  unfold enterImportDeclaration
  split
  · exact varsSub_handleImportSpecifiers specs vars
  · exact varsSub_refl vars

theorem varsSub_enterExpressionStatementChild (tM vars : List String) (e : Expr) :
    VarsSub vars (enterExpressionStatementChild tM vars e).2 := by
  match e with
  | .assign op l r =>
    simp only [enterExpressionStatementChild]
    split
    · exact varsSub_registerAssertionVariables vars l
    · exact varsSub_refl vars
  | .call c a => exact varsSub_refl vars
  | .awaitE a => exact varsSub_refl vars
  | .ident _ | .lit _ | .member _ _ | .objectPat _ | .property _ | .assignPat _ _
  | .restElem _ => exact varsSub_refl vars

theorem varsSub_visitDecls (ds : List Declarator) :
    ∀ (tM vars : List String) (kept : List Declarator),
    VarsSub vars (visitDecls tM vars kept ds).2.1 := by
  induction ds with
  | nil => intros; exact varsSub_refl _
  | cons d rest ih =>
    intro tM vars kept
    have he := varsSub_enterVariableDeclarator tM vars d (kept.length + 1 + rest.length)
    rcases h : enterVariableDeclarator tM vars d (kept.length + 1 + rest.length) with ⟨act, vars'⟩
    rw [h] at he
    cases act with
    | dMarkParent => simp only [visitDecls, h]; exact he
    | dMarkSelf => simp only [visitDecls, h]; exact varsSub_trans he (ih tM vars' kept)
    | dNone => simp only [visitDecls, h]; exact varsSub_trans he (ih tM vars' (kept ++ [d]))

theorem varsSub_visitForInit (tM vars : List String) (fi : ForInit) :
    VarsSub vars (visitForInit tM vars fi).2 := by
  match fi with
  | .varDecl kind decls =>
    have hd := varsSub_visitDecls decls tM vars []
    rcases h : visitDecls tM vars [] decls with ⟨kept, vars', pm⟩
    rw [h] at hd
    cases pm <;> simp only [visitForInit, h] <;> exact hd
  | .exprInit e => exact varsSub_refl vars

mutual
theorem varsSub_visitStmt : ∀ (s : Stmt) (tM vars : List String) (pn : Option Stmt) (key : Key),
    VarsSub vars (visitStmt tM vars pn key s).2
  | .exprStmt e => fun tM vars pn key => by
    have he := varsSub_enterExpressionStatementChild tM vars e
    rcases h : enterExpressionStatementChild tM vars e with ⟨m, vars'⟩
    rw [h] at he
    simp only [visitStmt, h]
    exact he
  | .importDecl specs source => fun tM vars pn key => by
    have he := varsSub_enterImportDeclaration tM vars specs source
    rcases h : enterImportDeclaration tM vars specs source with ⟨m, vars'⟩
    rw [h] at he
    simp only [visitStmt, h]
    exact he
  | .varDecl kind decls => fun tM vars pn key => by
    have hd := varsSub_visitDecls decls tM vars []
    rcases h : visitDecls tM vars [] decls with ⟨kept, vars', pm⟩
    rw [h] at hd
    simp only [visitStmt, h]
    exact hd
  | .ifStmt t c a => fun tM vars pn key => by
    simp only [visitStmt]
    exact varsSub_trans (varsSub_visitOStmt c tM vars _ _) (varsSub_visitOStmt a _ _ _ _)
  | .whileStmt t b => fun tM vars pn key => by
    simp only [visitStmt]
    exact varsSub_visitOStmt b tM vars _ _
  | .doWhileStmt b t => fun tM vars pn key => by
    simp only [visitStmt]
    exact varsSub_visitOStmt b tM vars _ _
  | .forStmt finit t u b => fun tM vars pn key => by
    simp only [visitStmt]
    match finit with
    | none => exact varsSub_visitOStmt b tM vars _ _
    | some fi =>
      have hf := varsSub_visitForInit tM vars fi
      rcases h : visitForInit tM vars fi with ⟨fi', vars1⟩
      rw [h] at hf
      simp only [h]
      exact varsSub_trans hf (varsSub_visitOStmt b tM vars1 _ _)
  | .forInStmt l r b => fun tM vars pn key => by
    simp only [visitStmt]
    match l with
    | none => exact varsSub_visitOStmt b tM vars _ _
    | some fi =>
      have hf := varsSub_visitForInit tM vars fi
      rcases h : visitForInit tM vars fi with ⟨fi', vars1⟩
      rw [h] at hf
      simp only [h]
      exact varsSub_trans hf (varsSub_visitOStmt b tM vars1 _ _)
  | .forOfStmt l r b => fun tM vars pn key => by
    simp only [visitStmt]
    match l with
    | none => exact varsSub_visitOStmt b tM vars _ _
    | some fi =>
      have hf := varsSub_visitForInit tM vars fi
      rcases h : visitForInit tM vars fi with ⟨fi', vars1⟩
      rw [h] at hf
      simp only [h]
      exact varsSub_trans hf (varsSub_visitOStmt b tM vars1 _ _)
  | .blockStmt body => fun tM vars pn key => by
    simp only [visitStmt]
    exact varsSub_visitStmtList body tM vars _
  | .program body => fun tM vars pn key => by
    simp only [visitStmt]
    exact varsSub_visitStmtList body tM vars _
  | .emptyStmt => fun tM vars pn key => varsSub_refl vars

theorem varsSub_visitOStmt : ∀ (o : OStmt) (tM vars : List String) (pn : Option Stmt) (key : Key),
    VarsSub vars (visitOStmt tM vars pn key o).2
  | .noStmt => fun tM vars pn key => varsSub_refl vars
  | .oStmt s => fun tM vars pn key => by
    have hs := varsSub_visitStmt s tM vars pn key
    rcases h : visitStmt tM vars pn key s with ⟨r, vars'⟩
    rw [h] at hs
    cases r <;> simp only [visitOStmt, h] <;> exact hs

theorem varsSub_visitStmtList : ∀ (l : StmtList) (tM vars : List String) (pn : Option Stmt),
    VarsSub vars (visitStmtList tM vars pn l).2
  | .nil => fun tM vars pn => varsSub_refl vars
  | .cons s tl => fun tM vars pn => by
    have hs := varsSub_visitStmt s tM vars pn .listElem
    rcases h : visitStmt tM vars pn .listElem s with ⟨r, vars1⟩
    rw [h] at hs
    simp only [visitStmtList, h]
    exact varsSub_trans hs (varsSub_visitStmtList tl tM vars1 pn)
end

/-! ## Monotonicity of recognition in the variable set -/

theorem isAssertionVariableName_mono {v v' : List String} (h : VarsSub v v')
    (id : Option Expr) (ht : isAssertionVariableName v id = true) :
    isAssertionVariableName v' id = true := by
  match id with
  | some (.ident n) => exact h n ht
  | none | some (.lit _) | some (.member _ _) | some (.call _ _) | some (.assign _ _ _)
  | some (.awaitE _) | some (.objectPat _) | some (.property _)
  | some (.assignPat _ _) | some (.restElem _) => exact absurd ht (by simp [isAssertionVariableName])

theorem isAssertionMethod_mono {v v' : List String} (h : VarsSub v v') :
    ∀ e : Expr, isAssertionMethod v e = true → isAssertionMethod v' e = true
  | .member obj prop => fun ht => by
    match obj with
    | .member o p =>
      simp only [isAssertionMethod] at ht ⊢
      exact isAssertionMethod_mono h (.member o p) ht
    | .ident n =>
      simp only [isAssertionMethod] at ht ⊢
      exact isAssertionVariableName_mono h _ ht
    | .lit _ | .call _ _ | .assign _ _ _ | .awaitE _ | .objectPat _ | .property _
    | .assignPat _ _ | .restElem _ =>
      simp only [isAssertionMethod] at ht ⊢
      exact isAssertionVariableName_mono h _ ht
  | .ident _ | .lit _ | .call _ _ | .assign _ _ _ | .awaitE _ | .objectPat _ | .property _
  | .assignPat _ _ | .restElem _ => fun ht => by
    exact absurd ht (by simp [isAssertionMethod])

theorem enterExpressionStatementChild_mark_mono {v v' : List String} (h : VarsSub v v')
    (tM : List String) (e : Expr)
    (ht : (enterExpressionStatementChild tM v e).1 = true) :
    (enterExpressionStatementChild tM v' e).1 = true := by
  match e with
  | .assign op l r =>
    simp only [enterExpressionStatementChild] at ht ⊢
    split at ht
    · next hc => simp [hc]
    · exact absurd ht (by simp)
  | .call callee a =>
    simp only [enterExpressionStatementChild, Bool.or_eq_true] at ht ⊢
    rcases ht with (hf | hm) | hc
    · exact Or.inl (Or.inl (isAssertionVariableName_mono h _ hf))
    · exact Or.inl (Or.inr (isAssertionMethod_mono h _ hm))
    · exact Or.inr hc
  | .awaitE arg =>
    match arg with
    | .call callee a =>
      simp only [enterExpressionStatementChild, Bool.or_eq_true] at ht ⊢
      rcases ht with (hf | hm) | hc
      · exact Or.inl (Or.inl (isAssertionVariableName_mono h _ hf))
      · exact Or.inl (Or.inr (isAssertionMethod_mono h _ hm))
      · exact Or.inr hc
    | .ident _ | .lit _ | .member _ _ | .assign _ _ _ | .awaitE _ | .objectPat _
    | .property _ | .assignPat _ _ | .restElem _ =>
      exact absurd ht (by simp [enterExpressionStatementChild])
  | .ident _ | .lit _ | .member _ _ | .objectPat _ | .property _ | .assignPat _ _
  | .restElem _ => exact absurd ht (by simp [enterExpressionStatementChild])

/-! ## A non-marking enter case leaves the variable set untouched -/

theorem enterExpressionStatementChild_false_vars (tM vars : List String) (e : Expr)
    (hf : (enterExpressionStatementChild tM vars e).1 = false) :
    enterExpressionStatementChild tM vars e = (false, vars) := by
  match e with
  | .assign op l r =>
    simp only [enterExpressionStatementChild] at hf ⊢
    split at hf
    · exact absurd hf (by simp)
    · next hcond => rw [if_neg hcond]
  | .call callee a =>
    simp only [enterExpressionStatementChild] at hf ⊢
    rw [hf]
  | .awaitE arg =>
    simp only [enterExpressionStatementChild] at hf ⊢
    rw [hf]
  | .ident _ | .lit _ | .member _ _ | .objectPat _ | .property _ | .assignPat _ _
  | .restElem _ => rfl

theorem enterImportDeclaration_mark (tM vars : List String) (specs : List ImportSpec)
    (source : Expr) :
    (enterImportDeclaration tM vars specs source).1 = isAssertionModuleName tM (some source) := by
  unfold enterImportDeclaration
  split
  · next hcond => simp [hcond]
  · next hcond => simp [hcond]

theorem enterImportDeclaration_false_vars (tM vars : List String) (specs : List ImportSpec)
    (source : Expr) (hf : (enterImportDeclaration tM vars specs source).1 = false) :
    enterImportDeclaration tM vars specs source = (false, vars) := by
  unfold enterImportDeclaration at hf ⊢
  split at hf
  · exact absurd hf (by simp)
  · next hcond => rw [if_neg hcond]

/-! ## Anti-monotonicity of `cleanStmt` in the variable set -/

mutual
theorem cleanStmt_antimono : ∀ (s : Stmt) (v v' tM : List String),
    VarsSub v v' → cleanStmt tM v' s = true → cleanStmt tM v s = true
  | .exprStmt e => fun v v' tM h hc => by
    simp only [cleanStmt, Bool.not_eq_true'] at hc ⊢
    by_contra hne
    rw [Bool.not_eq_false] at hne
    rw [enterExpressionStatementChild_mark_mono h tM e hne] at hc
    exact Bool.noConfusion hc
  | .importDecl specs source => fun v v' tM h hc => by
    simp only [cleanStmt, enterImportDeclaration_mark] at hc ⊢
    exact hc
  | .varDecl kind decls => fun v v' tM h hc => hc
  | .ifStmt t c a => fun v v' tM h hc => by
    simp only [cleanStmt, Bool.and_eq_true] at hc ⊢
    exact ⟨cleanOStmt_antimono c v v' tM h hc.1, cleanOStmt_antimono a v v' tM h hc.2⟩
  | .whileStmt t b => fun v v' tM h hc => cleanOStmt_antimono b v v' tM h hc
  | .doWhileStmt b t => fun v v' tM h hc => cleanOStmt_antimono b v v' tM h hc
  | .forStmt finit t u b => fun v v' tM h hc => by
    simp only [cleanStmt, Bool.and_eq_true] at hc ⊢
    exact ⟨hc.1, cleanOStmt_antimono b v v' tM h hc.2⟩
  | .forInStmt l r b => fun v v' tM h hc => by
    simp only [cleanStmt, Bool.and_eq_true] at hc ⊢
    exact ⟨hc.1, cleanOStmt_antimono b v v' tM h hc.2⟩
  | .forOfStmt l r b => fun v v' tM h hc => by
    simp only [cleanStmt, Bool.and_eq_true] at hc ⊢
    exact ⟨hc.1, cleanOStmt_antimono b v v' tM h hc.2⟩
  | .blockStmt body => fun v v' tM h hc => cleanStmtList_antimono body v v' tM h hc
  | .program body => fun v v' tM h hc => cleanStmtList_antimono body v v' tM h hc
  | .emptyStmt => fun v v' tM h hc => hc

theorem cleanOStmt_antimono : ∀ (o : OStmt) (v v' tM : List String),
    VarsSub v v' → cleanOStmt tM v' o = true → cleanOStmt tM v o = true
  | .noStmt => fun v v' tM h hc => hc
  | .oStmt s => fun v v' tM h hc => cleanStmt_antimono s v v' tM h hc

theorem cleanStmtList_antimono : ∀ (l : StmtList) (v v' tM : List String),
    VarsSub v v' → cleanStmtList tM v' l = true → cleanStmtList tM v l = true
  | .nil => fun v v' tM h hc => hc
  | .cons s tl => fun v v' tM h hc => by
    simp only [cleanStmtList, Bool.and_eq_true] at hc ⊢
    exact ⟨cleanStmt_antimono s v v' tM h hc.1, cleanStmtList_antimono tl v v' tM h hc.2⟩
end

/-! ## Conservation: a clean tree is returned unchanged with an unchanged
variable set -/

theorem visitDecls_allClean (ds : List Declarator) :
    ∀ (tM vars : List String) (kept : List Declarator),
    ds.all (fun d => !isTargetDeclarator tM d) = true →
    visitDecls tM vars kept ds = (kept ++ ds, vars, false) := by
  induction ds with
  | nil => intro tM vars kept _; simp [visitDecls]
  | cons d rest ih =>
    intro tM vars kept hall
    simp only [List.all_cons, Bool.and_eq_true, Bool.not_eq_true',
      isTargetDeclarator] at hall
    simp only [visitDecls, enterVariableDeclarator, isTargetDeclarator]
    rw [if_neg (by simp [hall.1])]
    show visitDecls tM vars (kept ++ [d]) rest = (kept ++ d :: rest, vars, false)
    rw [ih tM vars (kept ++ [d]) hall.2]
    simp

theorem visitForInit_clean (tM vars : List String) (fi : ForInit)
    (hc : cleanForInit tM fi = true) : visitForInit tM vars fi = (some fi, vars) := by
  match fi with
  | .varDecl kind decls =>
    simp only [cleanForInit] at hc
    simp only [visitForInit, visitDecls_allClean decls tM vars [] hc, List.nil_append]
  | .exprInit e => rfl

mutual
theorem visitStmt_clean : ∀ (s : Stmt) (tM vars : List String) (pn : Option Stmt) (key : Key),
    cleanStmt tM vars s = true → visitStmt tM vars pn key s = (some s, vars)
  | .exprStmt e => fun tM vars pn key hc => by
    simp only [cleanStmt, Bool.not_eq_true'] at hc
    simp only [visitStmt, enterExpressionStatementChild_false_vars tM vars e hc, leave,
      markableKind]
    rfl
  | .importDecl specs source => fun tM vars pn key hc => by
    simp only [cleanStmt, Bool.not_eq_true', enterImportDeclaration_mark] at hc
    have hf : (enterImportDeclaration tM vars specs source).1 = false := by
      rw [enterImportDeclaration_mark, hc]
    simp only [visitStmt, enterImportDeclaration_false_vars tM vars specs source hf, leave,
      markableKind]
    rfl
  | .varDecl kind decls => fun tM vars pn key hc => by
    simp only [cleanStmt] at hc
    simp only [visitStmt, visitDecls_allClean decls tM vars [] hc, List.nil_append, leave,
      markableKind]
    rfl
  | .ifStmt t c a => fun tM vars pn key hc => by
    simp only [cleanStmt, Bool.and_eq_true] at hc
    simp only [visitStmt, visitOStmt_clean c tM vars _ _ hc.1, visitOStmt_clean a tM vars _ _ hc.2]
  | .whileStmt t b => fun tM vars pn key hc => by
    simp only [cleanStmt] at hc
    simp only [visitStmt, visitOStmt_clean b tM vars _ _ hc]
  | .doWhileStmt b t => fun tM vars pn key hc => by
    simp only [cleanStmt] at hc
    simp only [visitStmt, visitOStmt_clean b tM vars _ _ hc]
  | .forStmt finit t u b => fun tM vars pn key hc => by
    simp only [cleanStmt, Bool.and_eq_true] at hc
    match finit with
    | none =>
      simp only [visitStmt, visitOStmt_clean b tM vars _ _ hc.2]
    | some fi =>
      simp only [visitStmt, visitForInit_clean tM vars fi hc.1,
        visitOStmt_clean b tM vars _ _ hc.2]
  | .forInStmt l r b => fun tM vars pn key hc => by
    simp only [cleanStmt, Bool.and_eq_true] at hc
    match l with
    | none =>
      simp only [visitStmt, visitOStmt_clean b tM vars _ _ hc.2]
    | some fi =>
      simp only [visitStmt, visitForInit_clean tM vars fi hc.1,
        visitOStmt_clean b tM vars _ _ hc.2]
  | .forOfStmt l r b => fun tM vars pn key hc => by
    simp only [cleanStmt, Bool.and_eq_true] at hc
    match l with
    | none =>
      simp only [visitStmt, visitOStmt_clean b tM vars _ _ hc.2]
    | some fi =>
      simp only [visitStmt, visitForInit_clean tM vars fi hc.1,
        visitOStmt_clean b tM vars _ _ hc.2]
  | .blockStmt body => fun tM vars pn key hc => by
    simp only [cleanStmt] at hc
    simp only [visitStmt, visitStmtList_clean body tM vars _ hc]
  | .program body => fun tM vars pn key hc => by
    simp only [cleanStmt] at hc
    simp only [visitStmt, visitStmtList_clean body tM vars _ hc]
  | .emptyStmt => fun tM vars pn key _ => rfl

theorem visitOStmt_clean : ∀ (o : OStmt) (tM vars : List String) (pn : Option Stmt) (key : Key),
    cleanOStmt tM vars o = true → visitOStmt tM vars pn key o = (o, vars)
  | .noStmt => fun tM vars pn key _ => rfl
  | .oStmt s => fun tM vars pn key hc => by
    simp only [cleanOStmt] at hc
    simp only [visitOStmt, visitStmt_clean s tM vars pn key hc]

theorem visitStmtList_clean : ∀ (l : StmtList) (tM vars : List String) (pn : Option Stmt),
    cleanStmtList tM vars l = true → visitStmtList tM vars pn l = (l, vars)
  | .nil => fun tM vars pn _ => rfl
  | .cons s tl => fun tM vars pn hc => by
    simp only [cleanStmtList, Bool.and_eq_true] at hc
    simp only [visitStmtList, visitStmt_clean s tM vars pn .listElem hc.1,
      visitStmtList_clean tl tM vars pn hc.2]
end

/-! ## Everything the visitor leaves in place is clean: after one pass the
tree contains no construct the predicates recognize under the initial
variable set -/

theorem visitDecls_kept_all (ds : List Declarator) :
    ∀ (tM vars : List String) (kept : List Declarator),
    kept.all (fun d => !isTargetDeclarator tM d) = true →
    (visitDecls tM vars kept ds).1.all (fun d => !isTargetDeclarator tM d) = true := by
  induction ds with
  | nil => intro tM vars kept hk; simpa [visitDecls] using hk
  | cons d rest ih =>
    intro tM vars kept hk
    simp only [visitDecls, enterVariableDeclarator]
    by_cases ht : isRemovalTarget tM d.id d.init = true
    · rw [if_pos ht]
      by_cases hl : (kept.length + 1 + rest.length == 1) = true
      · rw [if_pos hl]
        exact hk
      · rw [if_neg hl]
        exact ih tM (registerAssertionVariables vars d.id) kept hk
    · rw [if_neg ht]
      refine ih tM vars (kept ++ [d]) ?_
      simp only [List.all_append, List.all_cons, List.all_nil, Bool.and_eq_true]
      refine ⟨hk, ?_, trivial⟩
      simp [isTargetDeclarator, Bool.not_eq_true', Bool.of_not_eq_true ht]

theorem visitForInit_outClean (tM vars : List String) (fi : ForInit) :
    (match (visitForInit tM vars fi).1 with
      | some f => cleanForInit tM f
      | none => true) = true := by
  match fi with
  | .varDecl kind decls =>
    have hall := visitDecls_kept_all decls tM vars [] (by simp)
    rcases h : visitDecls tM vars [] decls with ⟨kept, vars', pm⟩
    rw [h] at hall
    cases pm
    · simp only [visitForInit, h, cleanForInit]
      exact hall
    · simp only [visitForInit, h]
  | .exprInit e => rfl

mutual
theorem visitStmt_outClean : ∀ (s : Stmt) (tM vars : List String) (pn : Option Stmt) (key : Key),
    cleanOptStmt tM vars (visitStmt tM vars pn key s).1 = true
  | .exprStmt e => fun tM vars pn key => by
    rcases h : enterExpressionStatementChild tM vars e with ⟨m, vars'⟩
    cases m
    · have hv : enterExpressionStatementChild tM vars e = (false, vars) :=
        enterExpressionStatementChild_false_vars tM vars e (by rw [h])
      simp [visitStmt, hv, leave, markableKind, cleanOptStmt, cleanStmt]
    · by_cases hnb : isNonBlockChildOfIfStatementOrLoop (.exprStmt e) pn key = true
      · simp [visitStmt, h, leave, markableKind, hnb, cleanOptStmt, cleanStmt,
          cleanStmtList]
      · simp [visitStmt, h, leave, markableKind, hnb, cleanOptStmt]
  | .importDecl specs source => fun tM vars pn key => by
    rcases h : enterImportDeclaration tM vars specs source with ⟨m, vars'⟩
    cases m
    · have hv : enterImportDeclaration tM vars specs source = (false, vars) :=
        enterImportDeclaration_false_vars tM vars specs source (by rw [h])
      simp [visitStmt, hv, leave, markableKind, cleanOptStmt, cleanStmt]
    · simp [visitStmt, h, leave, markableKind, isNonBlockChildOfIfStatementOrLoop,
        cleanOptStmt]
  | .varDecl kind decls => fun tM vars pn key => by
    have hall := visitDecls_kept_all decls tM vars [] (by simp)
    rcases h : visitDecls tM vars [] decls with ⟨kept, vars', pm⟩
    rw [h] at hall
    cases pm
    · simp only [visitStmt, h, leave, markableKind, cleanOptStmt, cleanStmt]
      exact hall
    · simp [visitStmt, h, leave, markableKind, isNonBlockChildOfIfStatementOrLoop,
        cleanOptStmt]
  | .ifStmt t c a => fun tM vars pn key => by
    have hc1 := visitOStmt_outClean c tM vars (some (.ifStmt t c a)) .consequent
    have hv1 := varsSub_visitOStmt c tM vars (some (.ifStmt t c a)) .consequent
    rcases h1 : visitOStmt tM vars (some (.ifStmt t c a)) .consequent c with ⟨c', vars1⟩
    rw [h1] at hc1 hv1
    have hc2 := visitOStmt_outClean a tM vars1 (some (.ifStmt t c a)) .alternate
    rcases h2 : visitOStmt tM vars1 (some (.ifStmt t c a)) .alternate a with ⟨a', vars2⟩
    rw [h2] at hc2
    simp only [visitStmt, h1, h2, cleanOptStmt, cleanStmt, Bool.and_eq_true]
    exact ⟨hc1, cleanOStmt_antimono a' vars vars1 tM hv1 hc2⟩
  | .whileStmt t b => fun tM vars pn key => by
    have hc := visitOStmt_outClean b tM vars (some (.whileStmt t b)) .body
    rcases h : visitOStmt tM vars (some (.whileStmt t b)) .body b with ⟨b', vars'⟩
    rw [h] at hc
    simp only [visitStmt, h, cleanOptStmt, cleanStmt]
    exact hc
  | .doWhileStmt b t => fun tM vars pn key => by
    have hc := visitOStmt_outClean b tM vars (some (.doWhileStmt b t)) .body
    rcases h : visitOStmt tM vars (some (.doWhileStmt b t)) .body b with ⟨b', vars'⟩
    rw [h] at hc
    simp only [visitStmt, h, cleanOptStmt, cleanStmt]
    exact hc
  | .forStmt finit t u b => fun tM vars pn key => by
    match finit with
    | none =>
      have hc := visitOStmt_outClean b tM vars (some (.forStmt none t u b)) .body
      rcases h : visitOStmt tM vars (some (.forStmt none t u b)) .body b with ⟨b', vars'⟩
      rw [h] at hc
      simp only [visitStmt, h, cleanOptStmt, cleanStmt, Bool.and_eq_true]
      exact ⟨trivial, hc⟩
    | some fi =>
      have hfc := visitForInit_outClean tM vars fi
      have hfv := varsSub_visitForInit tM vars fi
      rcases hf : visitForInit tM vars fi with ⟨fi', vars1⟩
      rw [hf] at hfc hfv
      have hc := visitOStmt_outClean b tM vars1 (some (.forStmt (some fi) t u b)) .body
      rcases h : visitOStmt tM vars1 (some (.forStmt (some fi) t u b)) .body b with ⟨b', vars2⟩
      rw [h] at hc
      simp only [visitStmt, hf, h, cleanOptStmt, cleanStmt, Bool.and_eq_true]
      exact ⟨hfc, cleanOStmt_antimono b' vars vars1 tM hfv hc⟩
  | .forInStmt l r b => fun tM vars pn key => by
    match l with
    | none =>
      have hc := visitOStmt_outClean b tM vars (some (.forInStmt none r b)) .body
      rcases h : visitOStmt tM vars (some (.forInStmt none r b)) .body b with ⟨b', vars'⟩
      rw [h] at hc
      simp only [visitStmt, h, cleanOptStmt, cleanStmt, Bool.and_eq_true]
      exact ⟨trivial, hc⟩
    | some fi =>
      have hfc := visitForInit_outClean tM vars fi
      have hfv := varsSub_visitForInit tM vars fi
      rcases hf : visitForInit tM vars fi with ⟨fi', vars1⟩
      rw [hf] at hfc hfv
      have hc := visitOStmt_outClean b tM vars1 (some (.forInStmt (some fi) r b)) .body
      rcases h : visitOStmt tM vars1 (some (.forInStmt (some fi) r b)) .body b with ⟨b', vars2⟩
      rw [h] at hc
      simp only [visitStmt, hf, h, cleanOptStmt, cleanStmt, Bool.and_eq_true]
      exact ⟨hfc, cleanOStmt_antimono b' vars vars1 tM hfv hc⟩
  | .forOfStmt l r b => fun tM vars pn key => by
    match l with
    | none =>
      have hc := visitOStmt_outClean b tM vars (some (.forOfStmt none r b)) .body
      rcases h : visitOStmt tM vars (some (.forOfStmt none r b)) .body b with ⟨b', vars'⟩
      rw [h] at hc
      simp only [visitStmt, h, cleanOptStmt, cleanStmt, Bool.and_eq_true]
      exact ⟨trivial, hc⟩
    | some fi =>
      have hfc := visitForInit_outClean tM vars fi
      have hfv := varsSub_visitForInit tM vars fi
      rcases hf : visitForInit tM vars fi with ⟨fi', vars1⟩
      rw [hf] at hfc hfv
      have hc := visitOStmt_outClean b tM vars1 (some (.forOfStmt (some fi) r b)) .body
      rcases h : visitOStmt tM vars1 (some (.forOfStmt (some fi) r b)) .body b with ⟨b', vars2⟩
      rw [h] at hc
      simp only [visitStmt, hf, h, cleanOptStmt, cleanStmt, Bool.and_eq_true]
      exact ⟨hfc, cleanOStmt_antimono b' vars vars1 tM hfv hc⟩
  | .blockStmt body => fun tM vars pn key => by
    have hc := visitStmtList_outClean body tM vars (some (.blockStmt body))
    rcases h : visitStmtList tM vars (some (.blockStmt body)) body with ⟨body', vars'⟩
    rw [h] at hc
    simp only [visitStmt, h, cleanOptStmt, cleanStmt]
    exact hc
  | .program body => fun tM vars pn key => by
    have hc := visitStmtList_outClean body tM vars (some (.program body))
    rcases h : visitStmtList tM vars (some (.program body)) body with ⟨body', vars'⟩
    rw [h] at hc
    simp only [visitStmt, h, cleanOptStmt, cleanStmt]
    exact hc
  | .emptyStmt => fun tM vars pn key => rfl

theorem visitOStmt_outClean : ∀ (o : OStmt) (tM vars : List String) (pn : Option Stmt) (key : Key),
    cleanOStmt tM vars (visitOStmt tM vars pn key o).1 = true
  | .noStmt => fun tM vars pn key => rfl
  | .oStmt s => fun tM vars pn key => by
    have hc := visitStmt_outClean s tM vars pn key
    rcases h : visitStmt tM vars pn key s with ⟨r, vars'⟩
    rw [h] at hc
    cases r
    · simp [visitOStmt, h, cleanOStmt]
    · simp only [visitOStmt, h, cleanOStmt]
      simpa [cleanOptStmt] using hc

theorem visitStmtList_outClean : ∀ (l : StmtList) (tM vars : List String) (pn : Option Stmt),
    cleanStmtList tM vars (visitStmtList tM vars pn l).1 = true
  | .nil => fun tM vars pn => rfl
  | .cons s tl => fun tM vars pn => by
    have hc1 := visitStmt_outClean s tM vars pn .listElem
    have hv1 := varsSub_visitStmt s tM vars pn .listElem
    rcases h1 : visitStmt tM vars pn .listElem s with ⟨r, vars1⟩
    rw [h1] at hc1 hv1
    have hc2 := visitStmtList_outClean tl tM vars1 pn
    rcases h2 : visitStmtList tM vars1 pn tl with ⟨tl', vars2⟩
    rw [h2] at hc2
    have htl : cleanStmtList tM vars tl' = true :=
      cleanStmtList_antimono tl' vars vars1 tM hv1 hc2
    cases r
    · simp only [visitStmtList, h1, h2]
      exact htl
    · simp only [visitStmtList, h1, h2, cleanStmtList, Bool.and_eq_true]
      exact ⟨by simpa [cleanOptStmt] using hc1, htl⟩
end

/-! ## Exact characterization of the declarations walk (claim C3) -/

theorem visitDecls_spec (ds : List Declarator) :
    ∀ (tM vars : List String) (kept : List Declarator),
    (visitDecls tM vars kept ds).2.2 =
      (kept.isEmpty && !ds.isEmpty && ds.all (fun d => isTargetDeclarator tM d)) ∧
    (visitDecls tM vars kept ds).1 =
      (if kept.isEmpty && !ds.isEmpty && ds.all (fun d => isTargetDeclarator tM d) then kept
       else kept ++ ds.filter (fun d => !isTargetDeclarator tM d)) := by
  induction ds with
  | nil =>
    intro tM vars kept
    simp [visitDecls]
  | cons d rest ih =>
    intro tM vars kept
    by_cases ht : isRemovalTarget tM d.id d.init = true
    · by_cases hl : (kept.length + 1 + rest.length == 1) = true
      · -- sole remaining declarator: the parent declaration is marked
        have hk : kept = [] := by
          cases kept with
          | nil => rfl
          | cons a as => simp [Nat.succ_ne_zero] at hl; omega
        have hr : rest = [] := by
          cases rest with
          | nil => rfl
          | cons a as => simp at hl; omega
        subst hk; subst hr
        simp only [visitDecls, enterVariableDeclarator]
        rw [if_pos ht, if_pos hl]
        simp [isTargetDeclarator, ht]
      · -- marked declarator is dropped from the live array
        simp only [visitDecls, enterVariableDeclarator]
        rw [if_pos ht, if_neg hl]
        show (visitDecls tM (registerAssertionVariables vars d.id) kept rest).2.2 = _ ∧
          (visitDecls tM (registerAssertionVariables vars d.id) kept rest).1 = _
        rw [(ih tM (registerAssertionVariables vars d.id) kept).1,
          (ih tM (registerAssertionVariables vars d.id) kept).2]
        have hne : ¬(kept = [] ∧ rest = []) := by
          rintro ⟨rfl, rfl⟩
          simp at hl
        cases kept with
        | cons a as =>
          simp [List.all_cons, List.filter_cons, isTargetDeclarator, ht]
        | nil =>
          have hrne : rest ≠ [] := fun hr => hne ⟨rfl, hr⟩
          cases rest with
          | nil => exact absurd rfl hrne
          | cons b bs =>
            simp [List.all_cons, List.filter_cons, isTargetDeclarator, ht]
    · -- a non-target declarator survives into `kept`
      simp only [visitDecls, enterVariableDeclarator]
      rw [if_neg ht]
      show (visitDecls tM vars (kept ++ [d]) rest).2.2 = _ ∧
        (visitDecls tM vars (kept ++ [d]) rest).1 = _
      rw [(ih tM vars (kept ++ [d])).1, (ih tM vars (kept ++ [d])).2]
      have hf : isTargetDeclarator tM d = false := by
        simp [isTargetDeclarator, Bool.of_not_eq_true ht]
      simp [List.all_cons, List.filter_cons, hf, List.append_assoc]

/-! ## Membership characterization of registration (claim C10) -/

theorem contains_addVar (vars : List String) (m n : String) :
    ((addVar vars m).contains n = true) ↔ (vars.contains n = true ∨ n = m) := by
  unfold addVar
  split
  · next hm =>
    constructor
    · exact Or.inl
    · rintro (h | rfl)
      · exact h
      · exact hm
  · simp only [List.contains_cons, Bool.or_eq_true, beq_iff_eq]
    tauto

theorem handleDestructured_contains (props : List Expr) :
    ∀ (vars : List String) (n : String),
    ((handleDestructuredAssertionAssignment vars props).contains n = true) ↔
      (vars.contains n = true ∨ n ∈ props.filterMap boundIdentName) := by
  induction props with
  | nil => intro vars n; simp [handleDestructuredAssertionAssignment]
  | cons p rest ih =>
    intro vars n
    show ((handleDestructuredAssertionAssignment
        (registerIdentifierAsAssertionVariable vars (propertyValue p)) rest).contains n = true) ↔ _
    rw [ih]
    rcases hp : propertyValue p with _ | v
    · simp [registerIdentifierAsAssertionVariable, List.filterMap_cons, boundIdentName, hp]
    · cases v with
      | ident m =>
        simp only [registerIdentifierAsAssertionVariable, List.filterMap_cons,
          boundIdentName, hp]
        rw [contains_addVar]
        simp only [List.mem_cons]
        tauto
      | lit l => simp [registerIdentifierAsAssertionVariable, List.filterMap_cons, boundIdentName, hp]
      | member a b => simp [registerIdentifierAsAssertionVariable, List.filterMap_cons, boundIdentName, hp]
      | call a b => simp [registerIdentifierAsAssertionVariable, List.filterMap_cons, boundIdentName, hp]
      | assign a b c => simp [registerIdentifierAsAssertionVariable, List.filterMap_cons, boundIdentName, hp]
      | awaitE a => simp [registerIdentifierAsAssertionVariable, List.filterMap_cons, boundIdentName, hp]
      | objectPat a => simp [registerIdentifierAsAssertionVariable, List.filterMap_cons, boundIdentName, hp]
      | property a => simp [registerIdentifierAsAssertionVariable, List.filterMap_cons, boundIdentName, hp]
      | assignPat a b => simp [registerIdentifierAsAssertionVariable, List.filterMap_cons, boundIdentName, hp]
      | restElem a => simp [registerIdentifierAsAssertionVariable, List.filterMap_cons, boundIdentName, hp]

/-! ## The claims -/

/-- C1, counterexample: with `variables` omitted the Target Variable Set
does not contain `assert` (it is empty, not the claimed default `{assert}`),
and with `variables: ['invariant']` supplied it still does not contain
`assert` (replacement, not the claimed merge); consequently a bare
`assert(x);` is not removed under default options. -/
theorem unassert_C1_counterexample :
    (targetVariablesOf none).contains "assert" = false ∧
    (targetVariablesOf (some ⟨none, some ["invariant"]⟩)).contains "assert" = false ∧
    unassertAst none exC1prog = some exC1prog :=
  ⟨rfl, rfl, rfl⟩

/-- C1 (amended): the Target Variable Set is exactly the caller's
`variables` list when supplied and empty when omitted (there is no default
and no merging); the Target Module Set is exactly the caller's `modules`
list when supplied, defaulting to
`{assert, assert/strict, node:assert, node:assert/strict}` when omitted. -/
theorem unassert_C1_variables_semantics :
    (∀ o : UnassertOptions, targetVariablesOf (some o) = o.«variables».getD []) ∧
    targetVariablesOf none = [] ∧
    (∀ o : UnassertOptions, targetModulesOf (some o) =
      o.modules.getD ["assert", "assert/strict", "node:assert", "node:assert/strict"]) ∧
    targetModulesOf none = ["assert", "assert/strict", "node:assert", "node:assert/strict"] := by
  refine ⟨fun o => ?_, rfl, fun o => ?_, rfl⟩
  · rcases o with ⟨m, v⟩
    cases v <;> rfl
  · rcases o with ⟨m, v⟩
    cases m <;> rfl

/-- C2, counterexample: a marked `var assert = require('node:assert')`
declaration sitting as the direct consequent of an `if` is a non-block
statement in a consequent slot, yet its leave event removes it (nulling the
slot) instead of replacing it with an empty block — the replacement happens
only for ExpressionStatements whose expression is a CallExpression. -/
theorem unassert_C2_counterexample :
    markableKind exC2var = true ∧
    isBodyOfIfStatement (some exC2if) Key.consequent = true ∧
    leave true exC2var (some exC2if) Key.consequent = LeaveOutcome.removeSelf ∧
    leave true exC2var (some exC2if) Key.consequent ≠
      LeaveOutcome.replaceWith (.blockStmt .nil) ∧
    unassertAst none exC2prog =
      some (.program (.cons (.ifStmt (.ident "c") .noStmt .noStmt) .nil)) :=
  ⟨rfl, rfl, rfl, fun h => LeaveOutcome.noConfusion h, rfl⟩

/-- C2 (amended): at the leave event of a marked node of the leave switch's
statement kinds, the node is replaced by an empty BlockStatement exactly
when `isNonBlockChildOfIfStatementOrLoop` holds — i.e. when it is an
ExpressionStatement whose expression is a CallExpression occupying an
if-branch or loop-body slot — and is removed in every other case (marked
nodes of other shapes in those slots are removed outright, leaving the slot
null); concretely, `if (c) assert(x);` becomes `if (c) {}` and
`while (c) assert(x);` becomes `while (c) {}`. -/
theorem unassert_C2_leave_decision :
    (∀ (cn : Stmt) (pn : Option Stmt) (key : Key), markableKind cn = true →
      leave true cn pn key =
        (if isNonBlockChildOfIfStatementOrLoop cn pn key then
          LeaveOutcome.replaceWith (.blockStmt .nil)
        else LeaveOutcome.removeSelf)) ∧
    unassertAst optsVarsAssert exC2ifCallProg =
      some (.program (.cons (.ifStmt (.ident "c") (.oStmt (.blockStmt .nil)) .noStmt) .nil)) ∧
    unassertAst optsVarsAssert exC2whileCallProg =
      some (.program (.cons (.whileStmt (.ident "c") (.oStmt (.blockStmt .nil))) .nil)) := by
  refine ⟨fun cn pn key h => ?_, rfl, rfl⟩
  simp [leave, h]

/-- C3, counterexample: in `var a = require('assert'), b = require('assert');`
declarator `a` is a removal target and is not the only declarator of its
parent declaration, so per the claim only `a` would be marked and its
sibling `b` preserved — but the walk splices `a` out of the live
`declarations` array first, so `b` is then the sole remaining declarator,
the whole parent declaration is marked, and nothing survives. -/
theorem unassert_C3_counterexample :
    isTargetDeclarator (targetModulesOf none) exDeclA = true ∧
    isTargetDeclarator (targetModulesOf none) exDeclB = true ∧
    unassertAst none exC3prog = some (.program .nil) ∧
    (Stmt.program .nil) ≠ .program (.cons (.varDecl "var" [exDeclB]) .nil) := by
  refine ⟨rfl, rfl, rfl, ?_⟩
  intro h
  injection h with h1
  exact StmtList.noConfusion h1

/-- C3 (amended): a declarator satisfying `isRemovalTarget` marks the
parent declaration when it is the only declarator remaining in the live
declarations array at its enter event, and otherwise marks just itself; as
a result the whole declaration is deleted exactly when the declaration is
nonempty and every declarator is a removal target, and otherwise exactly
the non-target declarators survive (so siblings that are not themselves
removal targets are always preserved). -/
theorem unassert_C3_declaration_removal :
    (∀ (tM vars : List String) (pn : Option Stmt) (key : Key) (kind : String)
      (ds : List Declarator),
    (visitStmt tM vars pn key (.varDecl kind ds)).1 =
      (if !ds.isEmpty && ds.all (fun d => isTargetDeclarator tM d) then none
       else some (.varDecl kind (ds.filter (fun d => !isTargetDeclarator tM d))))) ∧
    unassertAst none exC3mixedProg =
      some (.program (.cons (.varDecl "const" [⟨.ident "x", some (.lit (.num 1))⟩]) .nil)) := by
  refine ⟨?_, rfl⟩
  intro tM vars pn key kind ds
  have h := visitDecls_spec ds tM vars []
  rcases hv : visitDecls tM vars [] ds with ⟨kept, vars', pm⟩
  rw [hv] at h
  rcases h with ⟨h1, h2⟩
  simp only [List.isEmpty_nil, Bool.true_and, List.nil_append] at h1 h2
  by_cases hc : (!ds.isEmpty && ds.all (fun d => isTargetDeclarator tM d)) = true
  · have hpm : pm = true := h1.trans hc
    subst hpm
    rw [if_pos hc]
    simp [visitStmt, hv, leave, markableKind, isNonBlockChildOfIfStatementOrLoop]
  · have hpm : pm = false := by
      rw [h1]
      exact Bool.of_not_eq_true hc
    subst hpm
    rw [if_neg hc]
    rw [if_neg hc] at h2
    simp [visitStmt, hv, leave, markableKind, h2]

/-- C4: the transform is idempotent — whenever one pass returns a tree,
a second pass with the same options returns that tree unchanged (one pass
leaves no construct the recognition predicates match under the initial
variable set, so the second pass is a no-op). -/
theorem unassert_C4_idempotent :
    ∀ (opts : Option UnassertOptions) (ast out : Stmt),
    unassertAst opts ast = some out → unassertAst opts out = some out := by
  intro opts ast out h
  unfold unassertAst at h ⊢
  have hc := visitStmt_outClean ast (targetModulesOf opts) (targetVariablesOf opts) none .root
  rw [h] at hc
  have hc' : cleanStmt (targetModulesOf opts) (targetVariablesOf opts) out = true := by
    simpa [cleanOptStmt] using hc
  rw [visitStmt_clean out (targetModulesOf opts) (targetVariablesOf opts) none .root hc']

/-- C4, witness: one pass turns `const assert = require('node:assert');
assert.equal(a, b);` into the empty program, and the theorem applied there
shows the second pass keeps the empty program. -/
theorem unassert_C4_idempotent_witness :
    unassertAst none (.program .nil) = some (.program .nil) :=
  unassert_C4_idempotent none exC4prog (.program .nil) rfl

/-- C5: conservation outside assertions — an input in which no construct
matches the recognition predicates (no assertion-module import or require
binding, no sole-expression call or await with a recognized callee,
relative to the configured sets) is returned unchanged. -/
theorem unassert_C5_conservation :
    ∀ (opts : Option UnassertOptions) (ast : Stmt),
    cleanStmt (targetModulesOf opts) (targetVariablesOf opts) ast = true →
    unassertAst opts ast = some ast := by
  intro opts ast h
  unfold unassertAst
  rw [visitStmt_clean ast (targetModulesOf opts) (targetVariablesOf opts) none .root h]

/-- C5, witness: `foo(x);` matches nothing and is preserved. -/
theorem unassert_C5_conservation_witness :
    unassertAst none exC5prog = some exC5prog :=
  unassert_C5_conservation none exC5prog rfl

/-- C6, counterexample: under the default configuration (no options), the
Target Variable Set is empty, so `assert.deepStrictEqual(a, b);` with no
preceding assertion import or require is NOT removed — the program is
returned unchanged, not emptied. -/
theorem unassert_C6_counterexample :
    unassertAst none exC6prog = some exC6prog ∧ exC6prog ≠ .program .nil := by
  refine ⟨rfl, ?_⟩
  intro h
  rw [show exC6prog = .program (.cons exC6deep .nil) from rfl] at h
  injection h with h1
  exact StmtList.noConfusion h1

/-- C6 (amended): `assert.deepStrictEqual(a, b);` is removed once `assert`
is in the Target Variable Set — via `variables: ['assert']` or via a
preceding recognized require under the default modules — while
`notAssert.deepStrictEqual(a, b);` is preserved in either configuration. -/
theorem unassert_C6_method_recognition :
    unassertAst optsVarsAssert exC6prog = some (.program .nil) ∧
    unassertAst optsVarsAssert exC6notProg = some exC6notProg ∧
    unassertAst none exC6importedProg = some (.program .nil) ∧
    unassertAst none exC6notProg = some exC6notProg :=
  ⟨rfl, rfl, rfl, rfl⟩

/-- C7: `isConsoleAssert` is true exactly on the member access
`console.assert` with both parts plain identifiers, and a sole-expression
`console.assert(...)` statement is removed under every configuration of
the options. -/
theorem unassert_C7_consoleAssert :
    (∀ callee : Expr, isConsoleAssert callee = true ↔
      callee = .member (.ident "console") (.ident "assert")) ∧
    (∀ (opts : Option UnassertOptions) (args : List Expr),
      unassertAst opts (.program (.cons (.exprStmt
        (.call (.member (.ident "console") (.ident "assert")) args)) .nil)) =
      some (.program .nil)) := by
  constructor
  · intro callee
    match callee with
    | .member obj prop =>
      cases obj <;> cases prop <;> simp [isConsoleAssert]
    | .ident _ | .lit _ | .call _ _ | .assign _ _ _ | .awaitE _ | .objectPat _
    | .property _ | .assignPat _ _ | .restElem _ => simp [isConsoleAssert]
  · intro opts args
    unfold unassertAst
    simp [visitStmt, visitStmtList, enterExpressionStatementChild, isAssertionFunction,
      isAssertionVariableName, isAssertionMethod, isConsoleAssert, leave, markableKind,
      isNonBlockChildOfIfStatementOrLoop, isBodyOfIfStatement, isBodyOfIterationStatement,
      isIterationStatement]

/-- C8: when `assert` is in the Target Variable Set, the sole statement
`await assert.rejects(fn);` is removed, while
`const r = await assert.rejects(fn);` — where the await is not the sole
expression of an expression statement — is left untouched. -/
theorem unassert_C8_await :
    ∀ (opts : Option UnassertOptions),
    (targetVariablesOf opts).contains "assert" = true →
    unassertAst opts exC8awaitProg = some (.program .nil) ∧
    unassertAst opts exC8constProg = some exC8constProg := by
  intro opts h
  have h' : "assert" ∈ targetVariablesOf opts := by simpa using h
  constructor
  · unfold unassertAst exC8awaitProg
    simp [visitStmt, visitStmtList, enterExpressionStatementChild, isAssertionFunction,
      isAssertionVariableName, isAssertionMethod, isConsoleAssert, h', leave, markableKind,
      isNonBlockChildOfIfStatementOrLoop, isBodyOfIfStatement, isBodyOfIterationStatement,
      isIterationStatement]
  · unfold unassertAst exC8constProg
    simp [visitStmt, visitStmtList, visitDecls, enterVariableDeclarator, isRemovalTarget,
      isRequireAssert, isRequireAssertStrict, leave, markableKind,
      isNonBlockChildOfIfStatementOrLoop]

/-- C8, witness: the options `{ variables: ['assert'] }` put `assert` in
the Target Variable Set and both behaviors follow. -/
theorem unassert_C8_await_witness :
    unassertAst optsVarsAssert exC8awaitProg = some (.program .nil) ∧
    unassertAst optsVarsAssert exC8constProg = some exC8constProg :=
  unassert_C8_await optsVarsAssert (by decide)

/-- C9: within one traversal the Target Variable Set grows monotonically —
the set insert, both registration entry points, and the whole visit of any
statement or statement list only ever extend the set, never remove a name. -/
theorem unassert_C9_monotone :
    (∀ (vars : List String) (m : String), VarsSub vars (addVar vars m)) ∧
    (∀ (vars : List String) (id : Option Expr),
      VarsSub vars (registerIdentifierAsAssertionVariable vars id)) ∧
    (∀ (vars : List String) (node : Expr),
      VarsSub vars (registerAssertionVariables vars node)) ∧
    (∀ (s : Stmt) (tM vars : List String) (pn : Option Stmt) (key : Key),
      VarsSub vars (visitStmt tM vars pn key s).2) ∧
    (∀ (l : StmtList) (tM vars : List String) (pn : Option Stmt),
      VarsSub vars (visitStmtList tM vars pn l).2) :=
  ⟨varsSub_addVar, varsSub_registerIdentifier, varsSub_registerAssertionVariables,
    varsSub_visitStmt, varsSub_visitStmtList⟩

/-- C10: registering a destructured require binding adds exactly the names
of properties whose bound value is a plain identifier — a default-value
(AssignmentPattern) or nested-pattern binding contributes no name — and
concretely `const { ok = dflt } = require('assert'); ok(x);` loses the
declaration but keeps `ok(x);`, while `const { ok } = require('assert');
ok(x);` loses both. -/
theorem unassert_C10_destructured_registration :
    (∀ (vars : List String) (props : List Expr) (n : String),
      ((handleDestructuredAssertionAssignment vars props).contains n = true) ↔
        (vars.contains n = true ∨ n ∈ props.filterMap boundIdentName)) ∧
    (∀ l r : Expr, boundIdentName (.property (.assignPat l r)) = none) ∧
    (∀ ps : List Expr, boundIdentName (.property (.objectPat ps)) = none) ∧
    unassertAst none exC10prog = some (.program (.cons exC10use .nil)) ∧
    unassertAst none exC10plainProg = some (.program .nil) :=
  ⟨fun vars props n => handleDestructured_contains props vars n,
    fun l r => rfl, fun ps => rfl, rfl, rfl⟩
